import Mathlib

/-!
Verification of the pack current-distribution solver in
`examples/run_pack_discharge_ecm.py` (equiv-circ-model).

The script builds static per-cell grids `ocv_cells`, `r0_cells` (and an
initial-SOC grid `zi`) of shape `n_series × n_parallel`, initializes
`i_cells = np.zeros((len(i_pack), n_series, n_parallel))`, and then runs

  for k in range(1, len(i_pack)):
      v_modules = (np.sum(ocv_cells / r0_cells, axis=1) - i_pack[k])
                    / np.sum(1 / r0_cells, axis=1)
      i_cells[k] = ((ocv_cells.T - v_modules).T) / r0_cells

followed by

  i_cells2 = i_cells.transpose(1, 2, 0).reshape(i_cells[0].size, len(i_pack))

We model the mutable arrays by explicit state passing: a `SimState` record
holds the `i_cells` array (as a total function of time, module index and
parallel index, zero outside the written region, matching `np.zeros`) and
the three static grids; the python `for` loop is a `List.foldl` over
`List.range' 1 (len - 1)`, which is exactly `range(1, len(i_pack))`.
All arithmetic is in `ℚ` (exact arithmetic); numpy floating point is the
rounding of these exact values.
-/

namespace EquivCirc

/-- State carried through the solver loop of `run_pack_discharge_ecm.py`:
the per-cell current array `i_cells` (indexed timestep, module, parallel)
together with the static grids `ocv_cells`, `r0_cells` and `zi` that the
script allocates before the loop. -/
structure SimState where
  i_cells : ℕ → ℕ → ℕ → ℚ
  ocv_cells : ℕ → ℕ → ℚ
  r0_cells : ℕ → ℕ → ℚ
  zi : ℕ → ℕ → ℚ

/-- The module-voltage line of the loop body:
`v_modules = (np.sum(ocv_cells / r0_cells, axis=1) - i_pack[k]) / np.sum(1 / r0_cells, axis=1)`,
read at module row `m`.  `np.sum(A, axis=1)` sums the parallel index over
`0 ≤ p < npar`; the divisions are elementwise. -/
def v_modules (ocv r0 : ℕ → ℕ → ℚ) (npar : ℕ) (ipk : ℚ) (m : ℕ) : ℚ :=
  ((∑ p in Finset.range npar, ocv m p / r0 m p) - ipk) /
    (∑ p in Finset.range npar, 1 / r0 m p)

/-- One iteration of the loop body at index `k`:
`i_cells[k] = ((ocv_cells.T - v_modules).T) / r0_cells` writes the
`nser × npar` slice at timestep `k`; entry `(m, p)` of the broadcasted
right-hand side is `(ocv_cells[m,p] - v_modules[m]) / r0_cells[m,p]`.
The static grids are not assigned. -/
def loopStep (nser npar : ℕ) (i_pack : List ℚ) (s : SimState) (k : ℕ) : SimState :=
  { s with
    i_cells := fun t m p =>
      if t = k ∧ m < nser ∧ p < npar then
        (s.ocv_cells m p - v_modules s.ocv_cells s.r0_cells npar (i_pack.getD k 0) m) /
          s.r0_cells m p
      else s.i_cells t m p }

/-- The state before the loop: `i_cells = np.zeros((len(i_pack), n_series, n_parallel))`
and the three static grids as built by the script. -/
def initState (ocv r0 zi : ℕ → ℕ → ℚ) : SimState :=
  ⟨fun _ _ _ => 0, ocv, r0, zi⟩

/-- The whole solver run: `for k in range(1, len(i_pack)): ...` is a left fold
of `loopStep` over `[1, 2, ..., len(i_pack) - 1]`. -/
def packSim (nser npar : ℕ) (ocv r0 zi : ℕ → ℕ → ℚ) (i_pack : List ℚ) : SimState :=
  (List.range' 1 (i_pack.length - 1)).foldl (loopStep nser npar i_pack) (initState ocv r0 zi)

/-- Membership in the loop's index list `range(1, len)`. -/
lemma mem_range_one_iff (m n : ℕ) : m ∈ List.range' 1 n ↔ 1 ≤ m ∧ m < 1 + n := by
  rw [List.mem_range']
  constructor
  · rintro ⟨i, hi, rfl⟩
    omega
  · rintro ⟨h1, h2⟩
    exact ⟨m - 1, by omega, by omega⟩

/-- The loop body never assigns the static grids: any fold of `loopStep`
leaves `ocv_cells`, `r0_cells` and `zi` untouched. -/
lemma foldl_static (nser npar : ℕ) (i_pack : List ℚ) :
    ∀ (ks : List ℕ) (s : SimState),
      (ks.foldl (loopStep nser npar i_pack) s).ocv_cells = s.ocv_cells ∧
      (ks.foldl (loopStep nser npar i_pack) s).r0_cells = s.r0_cells ∧
      (ks.foldl (loopStep nser npar i_pack) s).zi = s.zi := by
  intro ks
  induction ks with
  | nil => exact fun s => ⟨rfl, rfl, rfl⟩
  | cons k ks ih => exact fun s => ih (loopStep nser npar i_pack s k)

/-- Closed form of the `i_cells` array after folding the loop body over any
index list: an entry inside the written region holds the per-cell current
formula evaluated on the (unchanged) static grids, every other entry keeps
its initial value. -/
lemma foldl_i_cells (nser npar : ℕ) (i_pack : List ℚ) :
    ∀ (ks : List ℕ) (s : SimState) (t m p : ℕ),
      (ks.foldl (loopStep nser npar i_pack) s).i_cells t m p =
        if t ∈ ks ∧ m < nser ∧ p < npar then
          (s.ocv_cells m p - v_modules s.ocv_cells s.r0_cells npar (i_pack.getD t 0) m) /
            s.r0_cells m p
        else s.i_cells t m p := by
  intro ks
  induction ks with
  | nil => intro s t m p; simp
  | cons k ks ih =>
    intro s t m p
    rw [List.foldl_cons, ih]
    by_cases hb : m < nser ∧ p < npar
    · by_cases hks : t ∈ ks
      · simp [hks, hb, loopStep]
      · by_cases hk : t = k
        · subst hk
          simp [hks, hb, loopStep]
        · simp [hks, hb, hk, loopStep]
    · simp [hb, loopStep]

/-- Main description of the solver output: `i_cells[t, m, p]` is the
Kirchhoff current for `1 ≤ t < len(i_pack)` and in-range `(m, p)`,
and the initial zero everywhere else. -/
lemma packSim_i_cells (nser npar : ℕ) (ocv r0 zi : ℕ → ℕ → ℚ) (i_pack : List ℚ)
    (t m p : ℕ) :
    (packSim nser npar ocv r0 zi i_pack).i_cells t m p =
      if (1 ≤ t ∧ t < i_pack.length) ∧ m < nser ∧ p < npar then
        (ocv m p - v_modules ocv r0 npar (i_pack.getD t 0) m) / r0 m p
      else 0 := by
  rw [packSim, foldl_i_cells]
  have hmem : t ∈ List.range' 1 (i_pack.length - 1) ↔ 1 ≤ t ∧ t < i_pack.length := by
    rw [mem_range_one_iff]
    omega
  simp [initState, hmem]

/-- The static grids survive the whole run unchanged. -/
lemma packSim_static (nser npar : ℕ) (ocv r0 zi : ℕ → ℕ → ℚ) (i_pack : List ℚ) :
    (packSim nser npar ocv r0 zi i_pack).ocv_cells = ocv ∧
    (packSim nser npar ocv r0 zi i_pack).r0_cells = r0 ∧
    (packSim nser npar ocv r0 zi i_pack).zi = zi :=
  foldl_static nser npar i_pack (List.range' 1 (i_pack.length - 1)) (initState ocv r0 zi)

/-- C5: timestep 0 is skipped by the solver loop (`range(1, len(i_pack))`
starts at 1), so for every module `m` and parallel index `p` the solved
current at timestep 0 keeps its `np.zeros` initialization, whatever
`i_pack[0]` is. -/
theorem timestep_zero_skipped (nser npar : ℕ) (ocv r0 zi : ℕ → ℕ → ℚ)
    (i_pack : List ℚ) (m p : ℕ) :
    (packSim nser npar ocv r0 zi i_pack).i_cells 0 m p = 0 := by
  simp [packSim_i_cells]

/-- C8 fails as stated: the claim has the solver loop reading the initial-SOC
grid `zi` at every timestep, but the loop body (lines 79-81) never reads
`zi` — the script reads it once, before the loop, to build `ocv_cells`.
Concretely, replacing the whole `zi` grid (0 everywhere versus 99
everywhere, so they differ at cell (0, 0)) leaves the solved current array
of the 2 × 3 uniform pack with `i_pack = [0, 30]` entirely unchanged. -/
theorem zi_not_read_cex :
    (fun (_ _ : ℕ) => (0 : ℚ)) 0 0 ≠ (fun (_ _ : ℕ) => (99 : ℚ)) 0 0 ∧
    (packSim 2 3 (fun _ _ => 37/10) (fun _ _ => 1/100) (fun _ _ => 0)
        [(0 : ℚ), 30]).i_cells =
      (packSim 2 3 (fun _ _ => 37/10) (fun _ _ => 1/100) (fun _ _ => 99)
        [(0 : ℚ), 30]).i_cells := by
  refine ⟨by norm_num, ?_⟩
  funext t m p
  rw [packSim_i_cells, packSim_i_cells]

/-- C8 (amended: the loop reads `ocv_cells` and `r0_cells` at every timestep,
but not `zi`, which is read only once before the loop): none of the three
static grids is mutated by the solver loop — after the run they are exactly
the grids supplied at initialization, the loop body assigning only
`i_cells[k]` — and the solved current array does not depend on `zi` at all:
runs differing only in `zi` produce identical `i_cells`. -/
theorem static_grids_unchanged (nser npar : ℕ) (ocv r0 zi zi2 : ℕ → ℕ → ℚ)
    (i_pack : List ℚ) :
    (packSim nser npar ocv r0 zi i_pack).ocv_cells = ocv ∧
    (packSim nser npar ocv r0 zi i_pack).r0_cells = r0 ∧
    (packSim nser npar ocv r0 zi i_pack).zi = zi ∧
    (packSim nser npar ocv r0 zi i_pack).i_cells =
      (packSim nser npar ocv r0 zi2 i_pack).i_cells := by
  obtain ⟨h1, h2, h3⟩ := packSim_static nser npar ocv r0 zi i_pack
  refine ⟨h1, h2, h3, ?_⟩
  funext t m p
  rw [packSim_i_cells, packSim_i_cells]

/-- C2: per-timestep solver algorithm: for every loop timestep `1 ≤ k < len(i_pack)`
and in-range cell `(m, p)`, the module terminal voltage computed by the loop is
`(Σ_p ocv[m,p]/r0[m,p] - i_pack[k]) / Σ_p (1/r0[m,p])` and the current written
to `i_cells[k, m, p]` is `(ocv[m,p] - v_modules[m]) / r0[m,p]`. -/
theorem solver_step_formula (nser npar : ℕ) (ocv r0 zi : ℕ → ℕ → ℚ)
    (i_pack : List ℚ) (k m p : ℕ)
    (hk1 : 1 ≤ k) (hk2 : k < i_pack.length) (hm : m < nser) (hp : p < npar) :
    v_modules ocv r0 npar (i_pack.getD k 0) m =
      ((∑ q in Finset.range npar, ocv m q / r0 m q) - i_pack.getD k 0) /
        (∑ q in Finset.range npar, 1 / r0 m q) ∧
    (packSim nser npar ocv r0 zi i_pack).i_cells k m p =
      (ocv m p - v_modules ocv r0 npar (i_pack.getD k 0) m) / r0 m p := by
  refine ⟨rfl, ?_⟩
  simp [packSim_i_cells, hk1, hk2, hm, hp]

/-- Witness for C2 at a concrete pack: 2 modules of 3 cells, uniform
3.7 V / 0.01 Ω, `i_pack = [0, 30]`, timestep 1, cell (0, 0). -/
theorem solver_step_formula_witness :
    1 ≤ 1 ∧ 1 < ([(0 : ℚ), 30]).length ∧ 0 < 2 ∧ 0 < 3 ∧
    (v_modules (fun _ _ => 37/10) (fun _ _ => 1/100) 3 (([(0 : ℚ), 30]).getD 1 0) 0 =
      ((∑ _q in Finset.range 3, (37 : ℚ)/10 / (1/100)) - ([(0 : ℚ), 30]).getD 1 0) /
        (∑ _q in Finset.range 3, 1 / ((1 : ℚ)/100)) ∧
    (packSim 2 3 (fun _ _ => 37/10) (fun _ _ => 1/100) (fun _ _ => 1) [(0 : ℚ), 30]).i_cells 1 0 0 =
      ((37 : ℚ)/10 - v_modules (fun _ _ => 37/10) (fun _ _ => 1/100) 3 (([(0 : ℚ), 30]).getD 1 0) 0) /
        ((1 : ℚ)/100)) :=
  ⟨by decide, by decide, by decide, by decide,
    solver_step_formula 2 3 (fun _ _ => 37/10) (fun _ _ => 1/100) (fun _ _ => 1)
      [(0 : ℚ), 30] 1 0 0 (by decide) (by decide) (by decide) (by decide)⟩

/-- C7: the solver is memoryless across timesteps: with the same static grids,
two loop timesteps fed the same commanded current receive the same cell
current — even when taken from two different command lists, so the value at
timestep `k` depends on the command list only through `i_pack[k]`. -/
theorem solver_memoryless (nser npar : ℕ) (ocv r0 zi : ℕ → ℕ → ℚ)
    (i_pack i_pack2 : List ℚ) (k j m p : ℕ)
    (hk1 : 1 ≤ k) (hk2 : k < i_pack.length)
    (hj1 : 1 ≤ j) (hj2 : j < i_pack2.length)
    (hval : i_pack.getD k 0 = i_pack2.getD j 0) :
    (packSim nser npar ocv r0 zi i_pack).i_cells k m p =
      (packSim nser npar ocv r0 zi i_pack2).i_cells j m p := by
  rw [packSim_i_cells, packSim_i_cells, hval]
  simp [hk1, hk2, hj1, hj2]

/-- Witness for C7: `i_pack = [0, 7, 3]` at timestep 1 and `i_pack2 = [9, 5, 7]`
at timestep 2 command the same 7 A, and the solved currents agree. -/
theorem solver_memoryless_witness :
    1 ≤ 1 ∧ 1 < ([(0 : ℚ), 7, 3]).length ∧ 1 ≤ 2 ∧ 2 < ([(9 : ℚ), 5, 7]).length ∧
    ([(0 : ℚ), 7, 3]).getD 1 0 = ([(9 : ℚ), 5, 7]).getD 2 0 ∧
    (packSim 1 1 (fun _ _ => 37/10) (fun _ _ => 1/100) (fun _ _ => 1) [(0 : ℚ), 7, 3]).i_cells 1 0 0 =
      (packSim 1 1 (fun _ _ => 37/10) (fun _ _ => 1/100) (fun _ _ => 1) [(9 : ℚ), 5, 7]).i_cells 2 0 0 :=
  ⟨by decide, by decide, by decide, by decide, by decide,
    solver_memoryless 1 1 (fun _ _ => 37/10) (fun _ _ => 1/100) (fun _ _ => 1)
      [(0 : ℚ), 7, 3] [(9 : ℚ), 5, 7] 1 2 0 0
      (by decide) (by decide) (by decide) (by decide) (by decide)⟩

/-- C1 fails as stated: timestep 0 is also a timestep of the simulation, but
there the currents keep their zero initialization.  Concretely, with a
single-cell pack, uniform 3.7 V / 0.01 Ω and `i_pack = [30]`, the per-module
sum of solved currents at timestep 0 is 0 while `i_pack[0] = 30`. -/
theorem current_conservation_cex :
    (∑ p in Finset.range 1,
      (packSim 1 1 (fun _ _ => 37/10) (fun _ _ => 1/100) (fun _ _ => 1)
        [(30 : ℚ)]).i_cells 0 0 p) = 0 ∧
    ([(30 : ℚ)]).getD 0 0 = 30 ∧ (0 : ℚ) ≠ 30 := by
  refine ⟨?_, rfl, by norm_num⟩
  simp [packSim_i_cells]

/-- C1 (amended to the loop's timesteps `t ≥ 1`): current conservation.
For every module `m` with positive resistances and every timestep
`1 ≤ t < len(i_pack)`, the solved per-cell currents of module `m` sum
exactly (in `ℚ`) to the commanded pack current `i_pack[t]`. -/
theorem current_conservation (nser npar : ℕ) (ocv r0 zi : ℕ → ℕ → ℚ)
    (i_pack : List ℚ) (t m : ℕ)
    (hnp : 0 < npar) (hm : m < nser) (hr : ∀ p, p < npar → 0 < r0 m p)
    (ht1 : 1 ≤ t) (ht2 : t < i_pack.length) :
    ∑ p in Finset.range npar,
      (packSim nser npar ocv r0 zi i_pack).i_cells t m p = i_pack.getD t 0 := by
  have hD : 0 < ∑ p in Finset.range npar, 1 / r0 m p := by
    refine Finset.sum_pos (fun p hp => ?_) (Finset.nonempty_range_iff.mpr hnp.ne')
    have := hr p (Finset.mem_range.mp hp)
    positivity
  have hcells : ∀ p ∈ Finset.range npar,
      (packSim nser npar ocv r0 zi i_pack).i_cells t m p =
        (ocv m p - v_modules ocv r0 npar (i_pack.getD t 0) m) / r0 m p := by
    intro p hp
    simp [packSim_i_cells, ht1, ht2, hm, Finset.mem_range.mp hp]
  rw [Finset.sum_congr rfl hcells]
  have hsplit : ∀ p ∈ Finset.range npar,
      (ocv m p - v_modules ocv r0 npar (i_pack.getD t 0) m) / r0 m p =
        ocv m p / r0 m p -
          v_modules ocv r0 npar (i_pack.getD t 0) m * (1 / r0 m p) := by
    intro p _
    rw [sub_div, mul_one_div]
  rw [Finset.sum_congr rfl hsplit, Finset.sum_sub_distrib, ← Finset.mul_sum,
    v_modules, div_mul_cancel₀ _ hD.ne']
  ring

/-- Witness for the amended C1: the 2 × 3 uniform pack with `i_pack = [0, 30]`
conserves the commanded 30 A in module 0 at timestep 1. -/
theorem current_conservation_witness :
    0 < 3 ∧ 0 < 2 ∧ (∀ p, p < 3 → (0 : ℚ) < (fun (_ _ : ℕ) => (1 : ℚ)/100) 0 p) ∧
    1 ≤ 1 ∧ 1 < ([(0 : ℚ), 30]).length ∧
    ∑ p in Finset.range 3,
      (packSim 2 3 (fun _ _ => 37/10) (fun _ _ => 1/100) (fun _ _ => 1)
        [(0 : ℚ), 30]).i_cells 1 0 p = ([(0 : ℚ), 30]).getD 1 0 :=
  ⟨by decide, by decide, by intro p _; norm_num, by decide, by decide,
    current_conservation 2 3 (fun _ _ => 37/10) (fun _ _ => 1/100) (fun _ _ => 1)
      [(0 : ℚ), 30] 1 0 (by decide) (by decide) (by intro p _; norm_num)
      (by decide) (by decide)⟩

/-- C3 fails as stated: in the example scenario (n_series = 2, n_parallel = 3,
uniform 0.01 Ω and 3.7 V, `i_pack` commanding 30 A) the solver assigns each
cell 10 A — modules in series each carry the full pack current, which the
three parallel cells split evenly — not the claimed 5 A.  Shown here at
timestep 1, cell (0, 0) of `i_pack = [30, 30]`. -/
theorem example_scenario_cex :
    (packSim 2 3 (fun _ _ => 37/10) (fun _ _ => 1/100) (fun _ _ => 1)
      [(30 : ℚ), 30]).i_cells 1 0 0 = 10 ∧ (10 : ℚ) ≠ 5 := by
  constructor
  · rw [packSim_i_cells]
    norm_num [v_modules, Finset.sum_range_succ]
  · norm_num

/-- C3 (amended: 10 A, not 5 A, and at the loop's timesteps `t ≥ 1`; at
timestep 0 the current keeps its zero initialization): with n_series = 2,
n_parallel = 3, `r0_cells` uniformly 0.01 Ω, `ocv_cells` uniformly 3.7 V and
every commanded entry equal to 30 A, the solver returns 10 A for every cell
`(m, p)` at every timestep `1 ≤ t < len(i_pack)`. -/
theorem example_scenario (zi : ℕ → ℕ → ℚ) (i_pack : List ℚ) (t m p : ℕ)
    (hconst : ∀ j, j < i_pack.length → i_pack.getD j 0 = 30)
    (ht1 : 1 ≤ t) (ht2 : t < i_pack.length) (hm : m < 2) (hp : p < 3) :
    (packSim 2 3 (fun _ _ => 37/10) (fun _ _ => 1/100) zi i_pack).i_cells t m p = 10 := by
  rw [packSim_i_cells]
  simp only [ht1, ht2, hm, hp, and_self, if_true, hconst t ht2]
  norm_num [v_modules, Finset.sum_range_succ]

/-- Witness for the amended C3: `i_pack = [30, 30]`, timestep 1, cell (0, 0). -/
theorem example_scenario_witness :
    (∀ j, j < ([(30 : ℚ), 30]).length → ([(30 : ℚ), 30]).getD j 0 = 30) ∧
    1 ≤ 1 ∧ 1 < ([(30 : ℚ), 30]).length ∧ 0 < 2 ∧ 0 < 3 ∧
    (packSim 2 3 (fun _ _ => 37/10) (fun _ _ => 1/100) (fun _ _ => 1)
      [(30 : ℚ), 30]).i_cells 1 0 0 = 10 :=
  ⟨by decide, by decide, by decide, by decide, by decide,
    example_scenario (fun _ _ => 1) [(30 : ℚ), 30] 1 0 0
      (by decide) (by decide) (by decide) (by decide) (by decide)⟩

/-- C4 fails as stated: "at every timestep t" includes timestep 0, which the
loop skips.  With n_series = n_parallel = 1 and `i_pack = [5]`, the one
cell's solved current at timestep 0 is 0 while `i_pack[0] = 5`. -/
theorem single_cell_cex :
    (packSim 1 1 (fun _ _ => 37/10) (fun _ _ => 1/100) (fun _ _ => 1)
      [(5 : ℚ)]).i_cells 0 0 0 = 0 ∧
    ([(5 : ℚ)]).getD 0 0 = 5 ∧ (0 : ℚ) ≠ 5 := by
  refine ⟨?_, rfl, by norm_num⟩
  simp [packSim_i_cells]

/-- C4 (amended to the loop's timesteps `t ≥ 1`): for a single-cell pack
(n_series = n_parallel = 1) with nonzero resistance, the solved current of
the one cell equals the commanded `i_pack[t]` exactly, for every
`1 ≤ t < len(i_pack)`. -/
theorem single_cell (ocv r0 zi : ℕ → ℕ → ℚ) (i_pack : List ℚ) (t : ℕ)
    (hr : r0 0 0 ≠ 0) (ht1 : 1 ≤ t) (ht2 : t < i_pack.length) :
    (packSim 1 1 ocv r0 zi i_pack).i_cells t 0 0 = i_pack.getD t 0 := by
  rw [packSim_i_cells]
  simp only [ht1, ht2, Nat.lt_irrefl, Nat.zero_lt_one, and_self, if_true]
  rw [v_modules]
  rw [Finset.sum_range_one, Finset.sum_range_one]
  field_simp

/-- Witness for the amended C4: single cell, 0.01 Ω, `i_pack = [0, 42]`,
timestep 1 carries exactly 42 A. -/
theorem single_cell_witness :
    ((fun (_ _ : ℕ) => (1 : ℚ)/100) 0 0 ≠ 0) ∧ 1 ≤ 1 ∧ 1 < ([(0 : ℚ), 42]).length ∧
    (packSim 1 1 (fun _ _ => 37/10) (fun _ _ => 1/100) (fun _ _ => 1)
      [(0 : ℚ), 42]).i_cells 1 0 0 = ([(0 : ℚ), 42]).getD 1 0 :=
  ⟨by norm_num, by decide, by decide,
    single_cell (fun _ _ => 37/10) (fun _ _ => 1/100) (fun _ _ => 1)
      [(0 : ℚ), 42] 1 (by norm_num) (by decide) (by decide)⟩

/-- C6 fails as stated: the script performs no validation of `r0_cells` and
raises nothing — the loop is plain array arithmetic.  With every resistance
equal to −0.01 Ω (≤ 0), the solver still produces a numeric current grid:
cell (0, 0) at timestep 1 gets the numeric value 10 A. -/
theorem invalid_resistance_cex :
    (-(1 : ℚ)/100 ≤ 0) ∧
    (packSim 2 3 (fun _ _ => 37/10) (fun _ _ => -(1)/100) (fun _ _ => 1)
      [(30 : ℚ), 30]).i_cells 1 0 0 = 10 := by
  constructor
  · norm_num
  · rw [packSim_i_cells]
    norm_num [v_modules, Finset.sum_range_succ]

/-- C6 (amended): the solver has no typed failure path and does not inspect
the sign of the resistances; any uniform nonzero resistance — negative
included — is pushed through the same formulas and yields the numeric even
split `i_pack[t] / 3` per cell on the 2 × 3 uniform-OCV pack, for every
loop timestep `1 ≤ t < len(i_pack)`. -/
theorem invalid_resistance_numeric (r : ℚ) (zi : ℕ → ℕ → ℚ) (i_pack : List ℚ)
    (t m p : ℕ) (hr : r ≠ 0)
    (ht1 : 1 ≤ t) (ht2 : t < i_pack.length) (hm : m < 2) (hp : p < 3) :
    (packSim 2 3 (fun _ _ => 37/10) (fun _ _ => r) zi i_pack).i_cells t m p =
      i_pack.getD t 0 / 3 := by
  rw [packSim_i_cells]
  simp only [ht1, ht2, hm, hp, and_self, if_true]
  rw [v_modules]
  rw [Finset.sum_range_succ, Finset.sum_range_succ, Finset.sum_range_one,
    Finset.sum_range_succ, Finset.sum_range_succ, Finset.sum_range_one]
  field_simp
  ring

/-- Witness for the amended C6: resistance −0.01 Ω, `i_pack = [30, 30]`,
timestep 1, cell (0, 0) still yields the numeric 30/3 A. -/
theorem invalid_resistance_numeric_witness :
    (-(1 : ℚ)/100 ≠ 0) ∧ 1 ≤ 1 ∧ 1 < ([(30 : ℚ), 30]).length ∧ 0 < 2 ∧ 0 < 3 ∧
    (packSim 2 3 (fun _ _ => 37/10) (fun _ _ => -(1)/100) (fun _ _ => 1)
      [(30 : ℚ), 30]).i_cells 1 0 0 = ([(30 : ℚ), 30]).getD 1 0 / 3 :=
  ⟨by norm_num, by decide, by decide, by decide, by decide,
    invalid_resistance_numeric (-(1)/100) (fun _ _ => 1) [(30 : ℚ), 30] 1 0 0
      (by norm_num) (by decide) (by decide) (by decide) (by decide)⟩

/-- The array `i_cells.transpose(1, 2, 0)`: numpy `transpose` permutes
indices, so entry `[m][p][t]` of the result is `i_cells[t, m, p]`; the
shape becomes `(nser, npar, T)`, rendered here as nested lists. -/
def i_cells_transposed (s : SimState) (nser npar T : ℕ) : List (List (List ℚ)) :=
  (List.range nser).map fun m =>
    (List.range npar).map fun p =>
      (List.range T).map fun t => s.i_cells t m p

/-- Numpy C-order `reshape(n, cols)`: entry `(r, c)` of the result is element
`r * cols + c` of the flattened input. -/
def reshapeRows (n cols : ℕ) (flat : List ℚ) : List (List ℚ) :=
  (List.range n).map fun r => (List.range cols).map fun c => flat.getD (r * cols + c) 0

/-- Line 83 of the script:
`i_cells2 = i_cells.transpose(1, 2, 0).reshape(i_cells[0].size, len(i_pack))`,
with `i_cells[0].size = nser * npar`. -/
def i_cells2 (nser npar : ℕ) (ocv r0 zi : ℕ → ℕ → ℚ) (i_pack : List ℚ) :
    List (List ℚ) :=
  reshapeRows (nser * npar) i_pack.length
    ((i_cells_transposed (packSim nser npar ocv r0 zi i_pack)
        nser npar i_pack.length).flatten.flatten)

/-- `getD` through a map over `List.range`. -/
lemma getD_map_range {α : Type} (d : α) (f : ℕ → α) {n i : ℕ} (h : i < n) :
    ((List.range n).map f).getD i d = f i := by
  rw [List.getD_eq_getElem?_getD, List.getElem?_map, List.getElem?_range h]
  rfl

/-- Indexing a flattened list of equal-length rows: element `i * L + j` of the
flattening is element `j` of row `i`. -/
lemma flatten_getD {α : Type} (d : α) :
    ∀ (ls : List (List α)) (L i j : ℕ), (∀ l ∈ ls, l.length = L) →
      i < ls.length → j < L →
      ls.flatten.getD (i * L + j) d = (ls.getD i []).getD j d := by
  intro ls
  induction ls with
  | nil =>
    intro L i j _ hi _
    simp at hi
  | cons hd tl ih =>
    intro L i j hlen hi hj
    have hhd : hd.length = L := hlen hd (List.mem_cons_self hd tl)
    cases i with
    | zero =>
      rw [Nat.zero_mul, Nat.zero_add, List.flatten_cons, List.getD_cons_zero,
        List.getD_eq_getElem?_getD, List.getElem?_append_left (by omega),
        ← List.getD_eq_getElem?_getD]
    | succ i =>
      have hsplit : (i + 1) * L + j = hd.length + (i * L + j) := by
        rw [hhd]
        ring
      rw [List.flatten_cons, List.getD_cons_succ, hsplit,
        List.getD_eq_getElem?_getD, List.getElem?_append_right (by omega),
        Nat.add_sub_cancel_left, ← List.getD_eq_getElem?_getD]
      exact ih L i j (fun l hl => hlen l (List.mem_cons_of_mem hd hl))
        (Nat.lt_of_succ_lt_succ hi) hj

/-- Length of the flattening of equal-length rows. -/
lemma flatten_length_uniform {α : Type} :
    ∀ (ls : List (List α)) (L : ℕ), (∀ l ∈ ls, l.length = L) →
      ls.flatten.length = ls.length * L := by
  intro ls
  induction ls with
  | nil => intro L _; simp
  | cons hd tl ih =>
    intro L hlen
    rw [List.flatten_cons, List.length_append, hlen hd (List.mem_cons_self hd tl),
      ih L (fun l hl => hlen l (List.mem_cons_of_mem hd hl)), List.length_cons]
    ring

/-- C9: the transpose-and-reshape producing `i_cells2` implements the stable
flat-index bijection `cellIndex = m * n_parallel + p`: `i_cells2` has exactly
`nser * npar` rows, each of length `len(i_pack)`, and row `m * npar + p` at
column `t` holds `i_cells[t, m, p]`. -/
theorem flat_index_bijection (nser npar : ℕ) (ocv r0 zi : ℕ → ℕ → ℚ)
    (i_pack : List ℚ) (m p t : ℕ)
    (hm : m < nser) (hp : p < npar) (ht : t < i_pack.length) :
    (i_cells2 nser npar ocv r0 zi i_pack).length = nser * npar ∧
    (∀ row ∈ i_cells2 nser npar ocv r0 zi i_pack, row.length = i_pack.length) ∧
    ((i_cells2 nser npar ocv r0 zi i_pack).getD (m * npar + p) []).getD t 0 =
      (packSim nser npar ocv r0 zi i_pack).i_cells t m p := by
  have hidx : m * npar + p < nser * npar := by
    calc m * npar + p < m * npar + npar := by omega
    _ = (m + 1) * npar := by ring
    _ ≤ nser * npar := Nat.mul_le_mul_right npar hm
  refine ⟨?_, ?_, ?_⟩
  · simp [i_cells2, reshapeRows]
  · intro row hrow
    simp only [i_cells2, reshapeRows, List.mem_map, List.mem_range] at hrow
    obtain ⟨r, _, rfl⟩ := hrow
    simp
  · set s := packSim nser npar ocv r0 zi i_pack with hs
    set A := i_cells_transposed s nser npar i_pack.length with hA
    have hA_len : A.length = nser := by simp [hA, i_cells_transposed]
    have hA_rows : ∀ l ∈ A, l.length = npar := by
      intro l hl
      simp only [hA, i_cells_transposed, List.mem_map, List.mem_range] at hl
      obtain ⟨m', _, rfl⟩ := hl
      simp
    have hAf_rows : ∀ l ∈ A.flatten, l.length = i_pack.length := by
      intro l hl
      rw [List.mem_flatten] at hl
      obtain ⟨mid, hmid, hlmid⟩ := hl
      simp only [hA, i_cells_transposed, List.mem_map, List.mem_range] at hmid
      obtain ⟨m', _, rfl⟩ := hmid
      simp only [List.mem_map, List.mem_range] at hlmid
      obtain ⟨p', _, rfl⟩ := hlmid
      simp
    have hAf_len : A.flatten.length = nser * npar := by
      rw [flatten_length_uniform A npar hA_rows, hA_len]
    rw [i_cells2, reshapeRows, getD_map_range ([] : List ℚ) _ hidx,
      getD_map_range (0 : ℚ) _ ht,
      flatten_getD (0 : ℚ) A.flatten i_pack.length (m * npar + p) t hAf_rows
        (by rw [hAf_len]; exact hidx) ht,
      flatten_getD ([] : List ℚ) A npar m p hA_rows (by rw [hA_len]; exact hm) hp,
      hA, i_cells_transposed, getD_map_range ([] : List (List ℚ)) _ hm,
      getD_map_range ([] : List ℚ) _ hp, getD_map_range (0 : ℚ) _ ht]

/-- Witness for C9 on the 2 × 3 uniform pack with `i_pack = [0, 30]` at
`(m, p, t) = (1, 2, 1)`: flat row index is 1 * 3 + 2 = 5. -/
theorem flat_index_bijection_witness :
    1 < 2 ∧ 2 < 3 ∧ 1 < ([(0 : ℚ), 30]).length ∧
    ((i_cells2 2 3 (fun _ _ => 37/10) (fun _ _ => 1/100) (fun _ _ => 1)
        [(0 : ℚ), 30]).length = 2 * 3 ∧
      (∀ row ∈ i_cells2 2 3 (fun _ _ => 37/10) (fun _ _ => 1/100) (fun _ _ => 1)
        [(0 : ℚ), 30], row.length = ([(0 : ℚ), 30]).length) ∧
      ((i_cells2 2 3 (fun _ _ => 37/10) (fun _ _ => 1/100) (fun _ _ => 1)
          [(0 : ℚ), 30]).getD (1 * 3 + 2) []).getD 1 0 =
        (packSim 2 3 (fun _ _ => 37/10) (fun _ _ => 1/100) (fun _ _ => 1)
          [(0 : ℚ), 30]).i_cells 1 1 2) :=
  ⟨by decide, by decide, by decide,
    flat_index_bijection 2 3 (fun _ _ => 37/10) (fun _ _ => 1/100) (fun _ _ => 1)
      [(0 : ℚ), 30] 1 2 1 (by decide) (by decide) (by decide)⟩

/-- With a uniform resistance grid, the deviation of a cell's solved current
from the even split `i_pack[t] / npar` is a time-independent function of the
OCV grid. -/
lemma uniform_r0_deviation (R0 : ℚ) (nser npar : ℕ) (ocv zi : ℕ → ℕ → ℚ)
    (i_pack : List ℚ) (t m p : ℕ)
    (hR : R0 ≠ 0) (hnp : 0 < npar)
    (ht1 : 1 ≤ t) (ht2 : t < i_pack.length) (hm : m < nser) (hp : p < npar) :
    (packSim nser npar ocv (fun _ _ => R0) zi i_pack).i_cells t m p -
        i_pack.getD t 0 / (npar : ℚ) =
      ((npar : ℚ) * ocv m p - ∑ q in Finset.range npar, ocv m q) /
        ((npar : ℚ) * R0) := by
  have hnQ : (npar : ℚ) ≠ 0 := Nat.cast_ne_zero.mpr hnp.ne'
  rw [packSim_i_cells]
  simp only [ht1, ht2, hm, hp, and_self, if_true]
  rw [v_modules, ← Finset.sum_div, Finset.sum_const, Finset.card_range,
    nsmul_eq_mul]
  field_simp
  ring

/-- C10: in the script `r0_cells` is a scalar times `np.ones`, i.e. every
entry equals the same `R0`; consequently, at every loop timestep the current
imbalance between two cells of one module is
`(ocv_cells[m,p] - ocv_cells[m,q]) / R0`, independent of the timestep, and
each cell's deviation from the even split `i_pack[t] / n_parallel` is the
same at any two loop timesteps. -/
theorem uniform_r0_imbalance (R0 : ℚ) (nser npar : ℕ) (ocv zi : ℕ → ℕ → ℚ)
    (i_pack : List ℚ) (k j m p q : ℕ)
    (hR : R0 ≠ 0) (hnp : 0 < npar)
    (hk1 : 1 ≤ k) (hk2 : k < i_pack.length)
    (hj1 : 1 ≤ j) (hj2 : j < i_pack.length)
    (hm : m < nser) (hp : p < npar) (hq : q < npar) :
    (∀ a b : ℕ, (fun (_ _ : ℕ) => R0) a b = R0) ∧
    (packSim nser npar ocv (fun _ _ => R0) zi i_pack).i_cells k m p -
        (packSim nser npar ocv (fun _ _ => R0) zi i_pack).i_cells k m q =
      (ocv m p - ocv m q) / R0 ∧
    (packSim nser npar ocv (fun _ _ => R0) zi i_pack).i_cells k m p -
        i_pack.getD k 0 / (npar : ℚ) =
      (packSim nser npar ocv (fun _ _ => R0) zi i_pack).i_cells j m p -
        i_pack.getD j 0 / (npar : ℚ) := by
  refine ⟨fun a b => rfl, ?_, ?_⟩
  · rw [packSim_i_cells, packSim_i_cells]
    simp only [hk1, hk2, hm, hp, hq, and_self, if_true]
    rw [div_sub_div_same]
    congr 1
    ring
  · rw [uniform_r0_deviation R0 nser npar ocv zi i_pack k m p hR hnp hk1 hk2 hm hp,
      uniform_r0_deviation R0 nser npar ocv zi i_pack j m p hR hnp hj1 hj2 hm hp]

/-- Witness for C10: uniform 0.01 Ω, OCV grid `(37 + m + p)/10`,
`i_pack = [0, 7, 3]`, module 0, cells 0 and 1, timesteps 1 and 2. -/
theorem uniform_r0_imbalance_witness :
    ((1 : ℚ)/100 ≠ 0) ∧ 0 < 3 ∧ 1 ≤ 1 ∧ 1 < ([(0 : ℚ), 7, 3]).length ∧
    1 ≤ 2 ∧ 2 < ([(0 : ℚ), 7, 3]).length ∧ 0 < 2 ∧ 0 < 3 ∧ 1 < 3 ∧
    ((∀ a b : ℕ, (fun (_ _ : ℕ) => (1 : ℚ)/100) a b = (1 : ℚ)/100) ∧
      (packSim 2 3 (fun m' p' => (37 + m' + p')/10) (fun _ _ => 1/100) (fun _ _ => 1)
          [(0 : ℚ), 7, 3]).i_cells 1 0 0 -
        (packSim 2 3 (fun m' p' => (37 + m' + p')/10) (fun _ _ => 1/100) (fun _ _ => 1)
          [(0 : ℚ), 7, 3]).i_cells 1 0 1 =
        (((37 : ℚ) + 0 + 0)/10 - ((37 : ℚ) + 0 + 1)/10) / ((1 : ℚ)/100) ∧
      (packSim 2 3 (fun m' p' => (37 + m' + p')/10) (fun _ _ => 1/100) (fun _ _ => 1)
          [(0 : ℚ), 7, 3]).i_cells 1 0 0 -
        ([(0 : ℚ), 7, 3]).getD 1 0 / ((3 : ℕ) : ℚ) =
        (packSim 2 3 (fun m' p' => (37 + m' + p')/10) (fun _ _ => 1/100) (fun _ _ => 1)
          [(0 : ℚ), 7, 3]).i_cells 2 0 0 -
        ([(0 : ℚ), 7, 3]).getD 2 0 / ((3 : ℕ) : ℚ)) :=
  ⟨by norm_num, by decide, by decide, by decide, by decide, by decide, by decide,
    by decide, by decide,
    uniform_r0_imbalance (1/100) 2 3 (fun m' p' => (37 + m' + p')/10) (fun _ _ => 1)
      [(0 : ℚ), 7, 3] 1 2 0 0 1 (by norm_num) (by decide) (by decide) (by decide)
      (by decide) (by decide) (by decide) (by decide) (by decide)⟩

end EquivCirc
